import Mathlib

/-!
Shallow embedding of the `sat-core` worker (files `tasks/bluebase.py` and
`tasks/app.py`) and proofs about the claims of its specification.

Conventions of the embedding:
* a Python string of symbols is a `List Char`;
* the alignment matrix (the parsed FASTA records, in file order) is a
  `List (List Char)`;
* Python exceptions are modelled with `Except String`: the string tags the
  kind of exception raised (`IndexError`, `ZeroDivisionError`, `KeyError`,
  `ValueError`) at the program point where the source raises it;
* Python floats holding exact small rationals are modelled as `ℚ`;
  Python's `round` (banker's rounding, half to even) is modelled exactly on
  the underlying rational.
-/

namespace SatCore

/-- `Nucleotide_common` from `bluebase.py`: the four canonical bases. -/
def Nucleotide_common : List Char := ['A', 'T', 'G', 'C']

/-- `DEG_list` from `bluebase.py`: symbols removed before the IUPAC lookup. -/
def DEG_list : List Char := ['Y', 'R', 'W', 'K', 'S', 'M', 'N', 'D', 'V', 'H', 'B', '-', '.']

/-- `str(record.seq).replace(".", "-").upper()` applied to one record. -/
def normalizeSeq (s : List Char) : List Char :=
  s.map (fun c => if c = '.' then '-' else c.toUpper)

/-!  ### Per-sequence missing-data masks (`bluebase.py` lines 92-141)

The forward loop builds `miss_front_seq` over characters with state
`(first?, miss_continue, miss_front)`; the branch order mirrors the
`if/elif` chain of the source.  The backward loop is the same machine run
over the reversed sequence (its mask is built by prepending). -/

def missMaskGo : List Char → Bool → Bool → Nat → List Char
  | [], _, _, _ => []
  | c :: rest, first, cont, mf =>
    if cont then '|' :: missMaskGo rest false cont mf
    else if first ∧ c = '-' then '*' :: missMaskGo rest false cont (mf + 1)
    else if first ∧ c ≠ '-' then '|' :: missMaskGo rest false true mf
    else if ¬first ∧ c ≠ '-' then '|' :: missMaskGo rest false true mf
    else if mf ≠ 0 ∧ c = '-' then '*' :: missMaskGo rest false cont (mf + 1)
    else missMaskGo rest false cont mf

/-- `miss_front_seq` of one record. -/
def missFrontMask (s : List Char) : List Char :=
  missMaskGo s true false 0

/-- `miss_end_seq` of one record (the same machine over the reversed
sequence, prepending each produced symbol). -/
def missEndMask (s : List Char) : List Char :=
  (missMaskGo s.reverse true false 0).reverse

/-!  ### `base_start` / `base_end` (`bluebase.py` lines 95-126)

`base_start` is only updated while it still equals `0`
(`if base_start == 0: base_start = i`), which is the source's sentinel
test; `base_end` is the symmetric scan over reversed indices. -/

def baseStartGo : List Char → Nat → Nat → Nat
  | [], _, bs => bs
  | c :: rest, i, bs => baseStartGo rest (i + 1) (if c ≠ '-' ∧ bs = 0 then i else bs)

def baseStart (s : List Char) : Nat := baseStartGo s 0 0

def baseEndGo : List Char → Nat → Nat → Nat
  | [], _, be => be
  | c :: rest, i, be => baseEndGo rest (i - 1) (if c ≠ '-' ∧ be = 0 then i else be)

def baseEnd (s : List Char) : Nat := baseEndGo s.reverse (s.length - 1) 0

/-- `nomissgap_seq = seq[base_start : base_end + 1]`. -/
def nomissgapSeq (s : List Char) : List Char :=
  (s.drop (baseStart s)).take (baseEnd s + 1 - baseStart s)

/-!  ### Gap-run extraction (`bluebase.py` lines 147-165) -/

/-- The `flag` loop collecting `gap_starts` and `gap_ends` over
`nomissgap_seq`, with `n` the running index. -/
def gapSE : List Char → Nat → Bool → List Nat × List Nat
  | [], _, _ => ([], [])
  | c :: rest, n, flag =>
    if c = '-' then
      if flag then gapSE rest (n + 1) true
      else
        let p := gapSE rest (n + 1) true
        (n :: p.1, p.2)
    else
      if flag then
        let p := gapSE rest (n + 1) false
        (p.1, n :: p.2)
      else gapSE rest (n + 1) false

/-- The `for g in range(len(gap_starts))` loop summing
`gap_ends[g] - gap_starts[g]`; accessing a missing `gap_ends[g]` is the
source's uncaught `IndexError`. -/
def sumGapPairs : List Nat → List Nat → Except String Nat
  | [], _ => .ok 0
  | _ :: _, [] => .error "IndexError: gap_ends"
  | s :: srest, e :: erest =>
    match sumGapPairs srest erest with
    | .error msg => .error msg
    | .ok t => .ok ((e - s) + t)

/-- Per-record contribution to the gap statistics:
`(counted as gapped sequence?, run count, summed run length)`. -/
def gapStatsOfSeq (seq : List Char) : Except String (Bool × Nat × Nat) :=
  let core := nomissgapSeq seq
  if '-' ∈ core then
    let p := gapSE core 0 false
    match sumGapPairs p.1 p.2 with
    | .error msg => .error msg
    | .ok sl => .ok (true, p.1.length, sl)
  else .ok (false, 0, 0)

/-- The record loop of `align_to_statistics` restricted to its gap-run
accumulators `(gap_seq_count, gap_count, gap_sumlength)`, one record at a
time. -/
def gapPhaseGo : List (List Char) → Nat × Nat × Nat → Except String (Nat × Nat × Nat)
  | [], acc => .ok acc
  | row :: rest, acc =>
    match gapStatsOfSeq row with
    | .error msg => .error msg
    | .ok r =>
      gapPhaseGo rest (acc.1 + (if r.1 then 1 else 0), acc.2.1 + r.2.1, acc.2.2 + r.2.2)

/-- The gap-run accumulators over the whole (already normalized) matrix. -/
def gapPhase (rows : List (List Char)) : Except String (Nat × Nat × Nat) :=
  gapPhaseGo rows (0, 0, 0)

/-!  ### Per-column statistics (`bluebase.py` lines 197-294) -/

/-- Python's `round` on the exact rational `100 * num / den`
(round half to even, as `round` does on a float). -/
def pctRound (num den : Nat) : Nat :=
  let a := 100 * num
  let q := a / den
  let r := a % den
  if 2 * r < den then q
  else if den < 2 * r then q + 1
  else if q % 2 = 0 then q else q + 1

/-- The distinct elements of a list, first occurrence first: the iteration
order of a Python `Counter` built from the list. -/
def firstOccs : List Char → List Char
  | [] => []
  | c :: rest => c :: (firstOccs rest).filter (· ≠ c)

/-- One step of scanning the counter entries for the most common one:
keep the current best, replace it only on a strictly greater count. -/
def mcStep (l : List Char) (acc : Option (Char × Nat)) (c : Char) : Option (Char × Nat) :=
  match acc with
  | none => some (c, l.count c)
  | some p => if p.2 < l.count c then some (c, l.count c) else acc

/-- `Counter(l).most_common(1)[0]`: the element with the greatest count,
ties resolved in favour of the earliest first occurrence (Python's
`most_common` sorts by count with a stable sort over insertion order). -/
def mostCommon1 (l : List Char) : Option (Char × Nat) :=
  (firstOccs l).foldl (mcStep l) none

/-- Insertion sort on characters: `sorted`/`list.sort()` of Python over a
set of distinct characters (code-point order). -/
def insertChar (c : Char) : List Char → List Char
  | [] => [c]
  | d :: rest => if c ≤ d then c :: d :: rest else d :: insertChar c rest

def sortChars : List Char → List Char
  | [] => []
  | c :: rest => insertChar c (sortChars rest)

/-- `Nucleotide_IUPAC_code` from `bluebase.py`; `none` models the
`KeyError` raised when the looked-up string is not a key. -/
def Nucleotide_IUPAC_code (s : String) : Option String :=
  if s = "A" then some "A"
  else if s = "G" then some "G"
  else if s = "C" then some "C"
  else if s = "T" then some "T"
  else if s = "CT" then some "Y"
  else if s = "AG" then some "R"
  else if s = "AT" then some "W"
  else if s = "GT" then some "K"
  else if s = "CG" then some "S"
  else if s = "AC" then some "M"
  else if s = "AGT" then some "D"
  else if s = "ACG" then some "V"
  else if s = "ACT" then some "H"
  else if s = "CGT" then some "B"
  else if s = "" then some "None"
  else if s = "ACGT" then some "X"
  else none

/-- The per-column inner `for j in range(0, list_length)` loop
(`bluebase.py` lines 202-214): builds `(data, mdata, not_gap_data)` for
column `i` from each row and its two masks.  A row shorter than `i+1`
raises `IndexError` inside the `try`, so only `data` receives `'-'`.
The mask accesses use `getD`: whenever the row access succeeded they are
in range, since each mask has the row's length (`missFrontMask_length`,
`missEndMask_length` below). -/
def columnOfGo : List (List Char × List Char × List Char) → Nat →
    List Char × List Char × List Char
  | [], _ => ([], [], [])
  | (row, fm, em) :: rest, i =>
    let p := columnOfGo rest i
    match row.get? i with
    | none => ('-' :: p.1, p.2.1, p.2.2)
    | some ch =>
      let ng := if ch ∈ Nucleotide_common then ch :: p.2.2 else p.2.2
      let f := fm.getD i '?'
      let e := em.getD i '?'
      let md :=
        if f = '*' ∧ e = '|' then '*' :: p.2.1
        else if f = '|' ∧ e = '|' then '|' :: p.2.1
        else if f = '|' ∧ e = '*' then '*' :: p.2.1
        else p.2.1
      (ch :: p.1, md, ng)

/-- All values the column loop computes for one position. -/
structure ColOut where
  aCount : Nat
  tCount : Nat
  gCount : Nat
  cCount : Nat
  etcCount : Nat
  missCount : Nat
  realGapCount : Int
  missGapCount : Nat
  totalCount : Nat
  apcr : Nat
  aFreq : Nat
  tFreq : Nat
  gFreq : Nat
  cFreq : Nat
  iupac : String
  maxNuc : Char
  maxNucCount : Nat
  freqMax : Nat
  deriving Repr, DecidableEq

/-- The body of the column loop (`bluebase.py` lines 216-293) on the
`(data, mdata, not_gap_data)` of one column.  `total_count = 0` is the
`ZeroDivisionError` of line 259; a failed IUPAC lookup is the `KeyError`
of line 273. -/
def colStats (data mdata notGap : List Char) : Except String ColOut :=
  let aCount := data.count 'A'
  let tCount := data.count 'T'
  let gCount := data.count 'G'
  let cCount := data.count 'C'
  let etcCount := data.count 'Y' + data.count 'R' + data.count 'W' + data.count 'S' +
    data.count 'K' + data.count 'M' + data.count 'D' + data.count 'V' +
    data.count 'H' + data.count 'B' + data.count 'N'
  let missCount := mdata.count '*'
  let mx := match mostCommon1 notGap with
    | some p => p
    | none => ('-', 0)
  let missGapCount := data.count '-' + data.count '.'
  let realGapCount : Int := (missGapCount : Int) - (missCount : Int)
  let sequenceCount := aCount + tCount + gCount + cCount
  let totalCount := aCount + tCount + gCount + cCount + etcCount + missGapCount
  if totalCount = 0 then .error "ZeroDivisionError: total_count" else
  let apcr := pctRound sequenceCount totalCount
  let temp := String.mk ((sortChars (firstOccs data)).filter (· ∉ DEG_list))
  let aFreq := pctRound aCount totalCount
  let tFreq := pctRound tCount totalCount
  let gFreq := pctRound gCount totalCount
  let cFreq := pctRound cCount totalCount
  match Nucleotide_IUPAC_code temp with
  | none => .error "KeyError: Nucleotide_IUPAC_code"
  | some iupac =>
    .ok { aCount, tCount, gCount, cCount, etcCount, missCount, realGapCount,
          missGapCount, totalCount, apcr, aFreq, tFreq, gFreq, cFreq, iupac,
          maxNuc := mx.1, maxNucCount := mx.2,
          freqMax := max (max (max aFreq tFreq) gFreq) cFreq }

/-- The rows of the matrix zipped with their two masks. -/
def maskedRows (rows fmasks emasks : List (List Char)) :
    List (List Char × List Char × List Char) :=
  (rows.zip (fmasks.zip emasks)).map (fun q => (q.1, q.2.1, q.2.2))

/-- The column loop over the listed positions, errors propagating left to
right. -/
def colPhaseGo (triples : List (List Char × List Char × List Char)) :
    List Nat → Except String (List ColOut)
  | [] => .ok []
  | i :: rest =>
    let p := columnOfGo triples i
    match colStats p.1 p.2.1 p.2.2 with
    | .error msg => .error msg
    | .ok c =>
      match colPhaseGo triples rest with
      | .error msg => .error msg
      | .ok cs => .ok (c :: cs)

/-- The column loop over positions `0 .. L-1` (`for i in range(0,
sequence_length)`). -/
def colPhase (rows fmasks emasks : List (List Char)) (len : Nat) :
    Except String (List ColOut) :=
  colPhaseGo (maskedRows rows fmasks emasks) (List.range len)

/-!  ### Blue-base classification (`bluebase.py` lines 296-327) -/

/-- The `blue_base_count` dict restricted to the six cutoffs it can ever
hold; an absent key is the field value `0`. -/
structure BucketCounts where
  b90 : Nat
  b80 : Nat
  b70 : Nat
  b60 : Nat
  b50 : Nat
  b40 : Nat
  deriving Repr, DecidableEq

def BucketCounts.empty : BucketCounts := ⟨0, 0, 0, 0, 0, 0⟩

def sumBuckets (bc : BucketCounts) : Nat :=
  bc.b90 + bc.b80 + bc.b70 + bc.b60 + bc.b50 + bc.b40

/-- The inner cutoff loop plus the trailing `< 40` test run for one
matching cell (`bluebase.py` lines 306-322), unrolled over the fixed
`pctid_cutoff = [90, 80, 70, 60, 50, 40]`. -/
def bucketIncr (f : Nat) (bc : BucketCounts) : BucketCounts :=
  let bc := if 90 ≤ f ∧ f ≤ 100 then { bc with b90 := bc.b90 + 1 } else bc
  let bc := if 80 ≤ f ∧ f < 90 then { bc with b80 := bc.b80 + 1 } else bc
  let bc := if 70 ≤ f ∧ f < 80 then { bc with b70 := bc.b70 + 1 } else bc
  let bc := if 60 ≤ f ∧ f < 70 then { bc with b60 := bc.b60 + 1 } else bc
  let bc := if 50 ≤ f ∧ f < 60 then { bc with b50 := bc.b50 + 1 } else bc
  let bc := if 40 ≤ f ∧ f < 50 then { bc with b40 := bc.b40 + 1 } else bc
  if f < 40 then { bc with b40 := bc.b40 + 1 } else bc

structure BlueAcc where
  buckets : BucketCounts
  noBlue : Nat
  noMiss : Nat
  deriving Repr, DecidableEq

def BlueAcc.empty : BlueAcc := ⟨BucketCounts.empty, 0, 0⟩

/-- One row of the blue-base loop: `j` is the running position, `profs`
the `bp_color` table indexed by column (its `j`-th entry is the dict entry
`bp_color[j+1]`); a position beyond the table is the uncaught `KeyError`
of `bp_color[j + 1]`. -/
def blueSeqGo (profs : List (Char × Nat)) : List Char → Nat → BlueAcc →
    Except String BlueAcc
  | [], _, acc => .ok acc
  | c :: rest, j, acc =>
    let acc := if c ≠ '-' then { acc with noMiss := acc.noMiss + 1 } else acc
    match profs.get? j with
    | none => .error "KeyError: bp_color"
    | some pr =>
      let acc :=
        if c = pr.1 then { acc with buckets := bucketIncr pr.2 acc.buckets }
        else if c ≠ '-' then { acc with noBlue := acc.noBlue + 1 } else acc
      blueSeqGo profs rest (j + 1) acc

/-- The outer blue-base loop, one row at a time. -/
def bluePhaseGo (profs : List (Char × Nat)) :
    List (List Char) → BlueAcc → Except String BlueAcc
  | [], acc => .ok acc
  | row :: rest, acc =>
    match blueSeqGo profs row 0 acc with
    | .error msg => .error msg
    | .ok acc2 => bluePhaseGo profs rest acc2

/-- The outer blue-base loop over every row. -/
def bluePhase (rows : List (List Char)) (profs : List (Char × Nat)) :
    Except String BlueAcc :=
  bluePhaseGo profs rows BlueAcc.empty

/-!  ### Report assembly and the whole engine
(`bluebase.py` lines 79-392) -/

/-- `value_names` (`bluebase.py` lines 357-366). -/
def valueNames : List String :=
  (["A", "T", "G", "C", "Miss", "Gap", "etc", "MissGap"].map (fun x => x ++ " count")) ++
  (["A", "T", "G", "C"].map (fun x => x ++ " freq")) ++
  ["Total count", "Coverage", "IUPAC", "Major base", "Major base count"]

def tabJoin (l : List String) : String := String.intercalate "\t" l

/-- `value_data_list` (`bluebase.py` lines 367-385), one per-column string
array per metric, in the source's order. -/
def valueDataLists (cols : List ColOut) : List (List String) :=
  [cols.map (fun c => Nat.repr c.aCount),
   cols.map (fun c => Nat.repr c.tCount),
   cols.map (fun c => Nat.repr c.gCount),
   cols.map (fun c => Nat.repr c.cCount),
   cols.map (fun c => Nat.repr c.missCount),
   cols.map (fun c => toString c.realGapCount),
   cols.map (fun c => Nat.repr c.etcCount),
   cols.map (fun c => Nat.repr c.missGapCount),
   cols.map (fun c => Nat.repr c.aFreq),
   cols.map (fun c => Nat.repr c.tFreq),
   cols.map (fun c => Nat.repr c.gFreq),
   cols.map (fun c => Nat.repr c.cFreq),
   cols.map (fun c => Nat.repr c.totalCount),
   cols.map (fun c => Nat.repr c.apcr),
   cols.map (fun c => c.iupac),
   cols.map (fun c => String.mk [c.maxNuc]),
   cols.map (fun c => Nat.repr c.maxNucCount)]

/-- `header_data` joined: `Position` then the column indices `1..L`. -/
def reportHeader (len : Nat) : String :=
  tabJoin ("Position" :: (List.range len).map (fun i => Nat.repr (i + 1)))

/-- The `values` list returned by `align_to_statistics`: the header line
then one line per metric, `<name>\t<tab-joined per-column values>`. -/
def mkValues (len : Nat) (cols : List ColOut) : List String :=
  reportHeader len ::
    List.zipWith (fun n d => n ++ "\t" ++ tabJoin d) valueNames (valueDataLists cols)

/-- Everything `align_to_statistics` returns (the `gap_stat_result` tuple
is spread into named fields). -/
structure EngineResult where
  values : List String
  totalSeq : Nat
  gapSeqCount : Nat
  gapCount : Nat
  gapFrequency : ℚ
  gapSumLength : Nat
  gapAvgLength : ℚ
  sumBlue : Nat
  noBlue : Nat
  noMiss : Nat
  blueRatio : ℚ
  buckets : BucketCounts
  seqLen : Nat
  cols : List ColOut
  deriving Repr

/-- `BlueBase.align_to_statistics` (`bluebase.py` lines 79-392) on the
parsed records, assembled from the phases above in the source's
evaluation (and hence exception) order. -/
def alignToStatistics (input : List (List Char)) : Except String EngineResult :=
  let fastaList := input.map normalizeSeq
  let fmasks := fastaList.map missFrontMask
  let emasks := fastaList.map missEndMask
  match gapPhase fastaList with
  | .error msg => .error msg
  | .ok gaps =>
  let gapFreq : ℚ := if gaps.1 = 0 then 0 else (gaps.2.1 : ℚ) / (gaps.1 : ℚ)
  let gapAvg : ℚ := if gaps.1 = 0 then 0 else (gaps.2.2 : ℚ) / (gaps.1 : ℚ)
  match fastaList.head? with
  | none => .error "IndexError: fasta_list"
  | some first =>
  let seqLen := first.length
  match colPhase fastaList fmasks emasks seqLen with
  | .error msg => .error msg
  | .ok cols =>
  match bluePhase fastaList (cols.map (fun c => (c.maxNuc, c.freqMax))) with
  | .error msg => .error msg
  | .ok blue =>
  if blue.noMiss = 0 then .error "ZeroDivisionError: nomiss_base_count" else
  .ok { values := mkValues seqLen cols,
        totalSeq := fastaList.length,
        gapSeqCount := gaps.1,
        gapCount := gaps.2.1,
        gapFrequency := gapFreq,
        gapSumLength := gaps.2.2,
        gapAvgLength := gapAvg,
        sumBlue := sumBuckets blue.buckets,
        noBlue := blue.noBlue,
        noMiss := blue.noMiss,
        blueRatio := (sumBuckets blue.buckets : ℚ) / (blue.noMiss : ℚ),
        buckets := blue.buckets,
        seqLen, cols }

/-!  ### `tasks/app.py`: tool variants, command planning, supervision,
and the alignment normalizer -/

/-- The `Tool` enum of `app.py`. -/
inductive Tool where
  | MAFFT
  | VSEARCH
  | UCLUST
  deriving Repr, DecidableEq

/-- `Tool(value)` — the enum value lookup; `none` models the `ValueError`
Python raises for an unknown value. -/
def toolOfString (s : String) : Option Tool :=
  if s = "mafft" then some .MAFFT
  else if s = "vsearch" then some .VSEARCH
  else if s = "uclust" then some .UCLUST
  else none

def joinSp (options : List String) : String := String.intercalate " " options

/-- Python's `str.lower()`, character by character (the tool names are
ASCII). -/
def strLower (s : String) : String := String.mk (s.data.map Char.toLower)

/-- `os.path.basename`, for the simple slash-separated paths used here. -/
def pathBasename (p : String) : String := (p.splitOn "/").getLastD p

/-- `os.path.dirname`, for the simple slash-separated paths used here. -/
def pathDirname (p : String) : String :=
  String.intercalate "/" ((p.splitOn "/").dropLast)

/-- `os.path.join` for one component. -/
def pathJoin (a b : String) : String := if a = "" then b else a ++ "/" ++ b

/-- `create_mafft_cmd` (`app.py` lines 274-276). -/
def create_mafft_cmd (input_path : String) (options : List String) : String :=
  "mafft " ++ joinSp options ++ " --thread 8 " ++ input_path

/-- `create_vsearch_cmd` (`app.py` lines 280-282). -/
def create_vsearch_cmd (input_path output_path : String) (options : List String) : String :=
  "vsearch --cluster_smallmem " ++ input_path ++ " " ++ joinSp options ++
    " --msaout " ++ output_path

/-- `create_uclust_cmd` (`app.py` lines 284-293). -/
def create_uclust_cmd (input_path output_path : String) (options : List String) : String :=
  let base_name := ((pathBasename output_path).splitOn ".").headD ""
  let base_path := pathDirname output_path
  let uc_file := pathJoin base_path (base_name ++ "_pctid_0.uc")
  let temp_fa := pathJoin base_path (base_name ++ "_pctid_0.fa")
  let cmd1 := "uclust --input " ++ input_path ++ " --uc " ++ uc_file ++ " " ++ joinSp options
  let cmd2 := "uclust --uc2fasta " ++ uc_file ++ " --input " ++ input_path ++
    " --output " ++ temp_fa
  let cmd3 := "uclust --staralign " ++ temp_fa ++ " --output " ++ output_path
  cmd1 ++ " && " ++ cmd2 ++ " && " ++ cmd3

/-- `create_cmd` (`app.py` lines 262-271). -/
def create_cmd (tool : Tool) (input_path output_path : String) (options : List String) :
    String :=
  match tool with
  | .MAFFT => create_mafft_cmd input_path options
  | .VSEARCH => create_vsearch_cmd input_path output_path options
  | .UCLUST => create_uclust_cmd input_path output_path options

/-- The command-planning prefix of `run_tool` (`app.py` line 203):
`create_cmd(Tool(tool.lower()), ...)`.  The `Tool(...)` lookup happens
first, so an unknown variant raises `ValueError` before any command is
planned. -/
def run_tool_plan (tool input_path output_path : String) (options : List String) :
    Except String String :=
  match toolOfString (strLower tool) with
  | none => .error "ValueError: invalid tool"
  | some t => .ok (create_cmd t input_path output_path options)

/-- `subprocess.Popen` (`app.py` line 214) runs only after the planning of
line 203 succeeded, so the number of processes spawned by the start of
`run_tool` is `1` on a plan and `0` on a planning error. -/
def run_tool_spawn_count (tool input_path output_path : String)
    (options : List String) : Nat :=
  match run_tool_plan tool input_path output_path options with
  | .ok _ => 1
  | .error _ => 0

/-- The supervision section of `run_tool` (`app.py` lines 226-246) as a
function of the outcome of `process.wait()` (an exit code, or an
exception).  Returns the outcome of the `try/except` block together with
the number of `monitor.stop_monitoring()` calls it performed: one at line
231 whenever `wait` returned, and one more at line 245 whenever the `try`
body raised — including the `RuntimeError` raised at line 241 for a
non-zero exit code, which is itself inside the `try`. -/
def superviseWait (wait : Except String Int) : Except String Unit × Nat :=
  let tryBody : Except String Unit × Nat :=
    match wait with
    | .error e => (.error e, 0)
    | .ok rc =>
      if rc ≠ 0 then (.error "RuntimeError: nonzero exit", 1) else (.ok (), 1)
  match tryBody with
  | (.ok u, s) => (.ok u, s)
  | (.error e, s) => (.error e, s + 1)

/-- `record.id.startswith("*")`. -/
def startsWithStar (s : String) : Bool :=
  match s.data with
  | [] => false
  | c :: _ => c = '*'

/-- `clean_align_file` (`app.py` lines 295-316) on the parsed records
`(id, sequence)`: drop the consensus row, compute the maximal retained
length, strip a leading `*` marker, replace `.`/`~` by `-`, right-pad
with `-` to the maximal length, upper-case; returns the rewritten records
and `max_length`. -/
def clean_align_file (records : List (String × List Char)) :
    List (String × List Char) × Nat :=
  let kept := records.filter (fun r => r.1 ≠ "consensus")
  let max_length := (kept.map (fun r => r.2.length)).foldl max 0
  let out := kept.map (fun r =>
    let id := if startsWithStar r.1 then String.mk (r.1.data.drop 1) else r.1
    let s := r.2.map (fun c => if c = '.' ∨ c = '~' then '-' else c)
    let s := s ++ List.replicate (max_length - s.length) '-'
    (id, s.map Char.toUpper))
  (out, max_length)

/-!  ### Spec-side helper notions used to state the claims -/

/-- Whether an `Except` result is an exception. -/
def isExceptError : {α : Type} → Except String α → Bool
  | _, .error _ => true
  | _, .ok _ => false

/-- The number of canonical-base occurrences (A, T, G, C) in the parsed
matrix, after normalization. -/
def canonicalOccurrences (input : List (List Char)) : Nat :=
  ((input.map normalizeSeq).map
    (fun r => r.countP (fun c => decide (c ∈ Nucleotide_common)))).sum

/-- The number of non-gap symbol occurrences in the parsed matrix, after
normalization: the quantity `nomiss_base_count` tracks. -/
def nomissOccurrences (input : List (List Char)) : Nat :=
  ((input.map normalizeSeq).map
    (fun r => r.countP (fun c => decide (c ≠ '-')))).sum

/-- Number of non-gap cells in rows already normalized. -/
def matrixNonGapCount (rows : List (List Char)) : Nat :=
  (rows.map (fun r => r.countP (fun c => decide (c ≠ '-')))).sum

/-- Number of cells equal to their column's majority entry in the profile
table. -/
def matrixMatchCount (rows : List (List Char)) (profs : List (Char × Nat)) : Nat :=
  (rows.map (fun r => (r.zip profs).countP (fun p => decide (p.1 = p.2.1)))).sum

/-- Number of non-gap cells differing from their column's majority entry. -/
def matrixNonBlueCount (rows : List (List Char)) (profs : List (Char × Nat)) : Nat :=
  (rows.map (fun r =>
    (r.zip profs).countP (fun p => decide (p.1 ≠ p.2.1 ∧ p.1 ≠ '-')))).sum

/-- Modelled from the spec's bucket-ladder wording: the unique bucket a
majority frequency `f` falls in — `[90,100]` to 90, each `[t, t+10)` to
`t` for `t ∈ {80,70,60,50,40}`, and everything below 40 folded into 40. -/
def ladderBucket (f : Nat) : Nat :=
  if 90 ≤ f then 90
  else if 80 ≤ f then 80
  else if 70 ≤ f then 70
  else if 60 ≤ f then 60
  else if 50 ≤ f then 50
  else 40

/-- The count a `BucketCounts` holds for a threshold. -/
def bucketGet (bc : BucketCounts) (t : Nat) : Nat :=
  if t = 90 then bc.b90
  else if t = 80 then bc.b80
  else if t = 70 then bc.b70
  else if t = 60 then bc.b60
  else if t = 50 then bc.b50
  else if t = 40 then bc.b40
  else 0

/-!  ## Helper lemmas -/

lemma bucketIncr_eq_90 {f : Nat} (hf : f ≤ 100) (h : 90 ≤ f) (bc : BucketCounts) :
    bucketIncr f bc = { bc with b90 := bc.b90 + 1 } := by
  simp only [bucketIncr]
  rw [if_neg (by omega), if_neg (by omega), if_neg (by omega), if_neg (by omega),
    if_neg (by omega), if_neg (by omega), if_pos ⟨h, hf⟩]

lemma bucketIncr_eq_80 {f : Nat} (h1 : 80 ≤ f) (h2 : f < 90) (bc : BucketCounts) :
    bucketIncr f bc = { bc with b80 := bc.b80 + 1 } := by
  simp only [bucketIncr]
  rw [if_neg (by omega), if_neg (by omega), if_neg (by omega), if_neg (by omega),
    if_neg (by omega), if_pos ⟨h1, h2⟩, if_neg (by omega)]

lemma bucketIncr_eq_70 {f : Nat} (h1 : 70 ≤ f) (h2 : f < 80) (bc : BucketCounts) :
    bucketIncr f bc = { bc with b70 := bc.b70 + 1 } := by
  simp only [bucketIncr]
  rw [if_neg (by omega), if_neg (by omega), if_neg (by omega), if_neg (by omega),
    if_pos ⟨h1, h2⟩, if_neg (by omega), if_neg (by omega)]

lemma bucketIncr_eq_60 {f : Nat} (h1 : 60 ≤ f) (h2 : f < 70) (bc : BucketCounts) :
    bucketIncr f bc = { bc with b60 := bc.b60 + 1 } := by
  simp only [bucketIncr]
  rw [if_neg (by omega), if_neg (by omega), if_neg (by omega), if_pos ⟨h1, h2⟩,
    if_neg (by omega), if_neg (by omega), if_neg (by omega)]

lemma bucketIncr_eq_50 {f : Nat} (h1 : 50 ≤ f) (h2 : f < 60) (bc : BucketCounts) :
    bucketIncr f bc = { bc with b50 := bc.b50 + 1 } := by
  simp only [bucketIncr]
  rw [if_neg (by omega), if_neg (by omega), if_pos ⟨h1, h2⟩, if_neg (by omega),
    if_neg (by omega), if_neg (by omega), if_neg (by omega)]

lemma bucketIncr_eq_40 {f : Nat} (h2 : f < 50) (bc : BucketCounts) :
    bucketIncr f bc = { bc with b40 := bc.b40 + 1 } := by
  rcases Nat.lt_or_ge f 40 with h | h
  · simp only [bucketIncr]
    rw [if_pos h, if_neg (by omega), if_neg (by omega), if_neg (by omega),
      if_neg (by omega), if_neg (by omega), if_neg (by omega)]
  · simp only [bucketIncr]
    rw [if_neg (by omega), if_pos ⟨h, h2⟩, if_neg (by omega), if_neg (by omega),
      if_neg (by omega), if_neg (by omega), if_neg (by omega)]

lemma sumBuckets_bucketIncr {f : Nat} (hf : f ≤ 100) (bc : BucketCounts) :
    sumBuckets (bucketIncr f bc) = sumBuckets bc + 1 := by
  rcases Nat.lt_or_ge f 50 with h | h
  · rw [bucketIncr_eq_40 h]; simp only [sumBuckets]; omega
  rcases Nat.lt_or_ge f 60 with h2 | h2
  · rw [bucketIncr_eq_50 h h2]; simp only [sumBuckets]; omega
  rcases Nat.lt_or_ge f 70 with h3 | h3
  · rw [bucketIncr_eq_60 h2 h3]; simp only [sumBuckets]; omega
  rcases Nat.lt_or_ge f 80 with h4 | h4
  · rw [bucketIncr_eq_70 h3 h4]; simp only [sumBuckets]; omega
  rcases Nat.lt_or_ge f 90 with h5 | h5
  · rw [bucketIncr_eq_80 h4 h5]; simp only [sumBuckets]; omega
  · rw [bucketIncr_eq_90 hf h5]; simp only [sumBuckets]; omega

lemma bucketGet_bucketIncr {f : Nat} (hf : f ≤ 100) (bc : BucketCounts) (t : Nat) :
    bucketGet (bucketIncr f bc) t = bucketGet bc t + (if t = ladderBucket f then 1 else 0) := by
  rcases Nat.lt_or_ge f 50 with h | h
  · rw [bucketIncr_eq_40 h]
    have hl : ladderBucket f = 40 := by simp only [ladderBucket]; split_ifs <;> omega
    rw [hl]; simp only [bucketGet]; split_ifs <;> first | rfl | omega
  rcases Nat.lt_or_ge f 60 with h2 | h2
  · rw [bucketIncr_eq_50 h h2]
    have hl : ladderBucket f = 50 := by simp only [ladderBucket]; split_ifs <;> omega
    rw [hl]; simp only [bucketGet]; split_ifs <;> first | rfl | omega
  rcases Nat.lt_or_ge f 70 with h3 | h3
  · rw [bucketIncr_eq_60 h2 h3]
    have hl : ladderBucket f = 60 := by simp only [ladderBucket]; split_ifs <;> omega
    rw [hl]; simp only [bucketGet]; split_ifs <;> first | rfl | omega
  rcases Nat.lt_or_ge f 80 with h4 | h4
  · rw [bucketIncr_eq_70 h3 h4]
    have hl : ladderBucket f = 70 := by simp only [ladderBucket]; split_ifs <;> omega
    rw [hl]; simp only [bucketGet]; split_ifs <;> first | rfl | omega
  rcases Nat.lt_or_ge f 90 with h5 | h5
  · rw [bucketIncr_eq_80 h4 h5]
    have hl : ladderBucket f = 80 := by simp only [ladderBucket]; split_ifs <;> omega
    rw [hl]; simp only [bucketGet]; split_ifs <;> first | rfl | omega
  · rw [bucketIncr_eq_90 hf h5]
    have hl : ladderBucket f = 90 := by simp only [ladderBucket]; rw [if_pos h5]
    rw [hl]; simp only [bucketGet]; split_ifs <;> first | rfl | omega

lemma pctRound_nearest {n d : Nat} (hd : 0 < d) :
    2 * (d * pctRound n d) ≤ 200 * n + d ∧ 200 * n ≤ 2 * (d * pctRound n d) + d := by
  have key := Nat.div_add_mod (100 * n) d
  have hr : 100 * n % d < d := Nat.mod_lt _ hd
  simp only [pctRound]
  split_ifs <;> constructor <;> (try simp only [Nat.mul_add, Nat.mul_one]) <;> omega

lemma pctRound_mono {d m n : Nat} (hd : 0 < d) (h : m ≤ n) :
    pctRound m d ≤ pctRound n d := by
  have ha := Nat.div_add_mod (100 * m) d
  have hb := Nat.div_add_mod (100 * n) d
  have hra : 100 * m % d < d := Nat.mod_lt _ hd
  have hrb : 100 * n % d < d := Nat.mod_lt _ hd
  have hq : 100 * m / d ≤ 100 * n / d := Nat.div_le_div_right (by omega)
  simp only [pctRound]
  rcases Nat.eq_or_lt_of_le hq with he | hl
  · rw [← he] at hb ⊢
    split_ifs <;> omega
  · split_ifs <;> omega

lemma mem_firstOccs {x : Char} : ∀ {l : List Char}, x ∈ firstOccs l ↔ x ∈ l := by
  intro l
  induction l with
  | nil => simp [firstOccs]
  | cons c rest ih =>
    by_cases hx : x = c
    · subst hx; simp [firstOccs]
    · simp [firstOccs, List.mem_filter, hx, ih]

lemma firstOccs_eq_nil {l : List Char} : firstOccs l = [] ↔ l = [] := by
  cases l with
  | nil => simp [firstOccs]
  | cons c rest => simp [firstOccs]

lemma mcStep_fold {l : List Char} :
    ∀ (cands : List Char) (b : Char), b ∈ l → (∀ x ∈ cands, x ∈ l) →
    ∃ b', cands.foldl (mcStep l) (some (b, l.count b)) = some (b', l.count b') ∧
      b' ∈ l ∧ l.count b ≤ l.count b' ∧ ∀ x ∈ cands, l.count x ≤ l.count b' := by
  intro cands
  induction cands with
  | nil => exact fun b hb _ => ⟨b, rfl, hb, le_refl _, by simp⟩
  | cons c rest ih =>
    intro b hb hsub
    simp only [List.foldl_cons]
    by_cases hlt : l.count b < l.count c
    · rw [show mcStep l (some (b, l.count b)) c = some (c, l.count c) by
        simp [mcStep, hlt]]
      obtain ⟨b', h1, h2, h3, h4⟩ := ih c (hsub c (by simp)) (fun x hx => hsub x (by simp [hx]))
      exact ⟨b', h1, h2, le_trans (le_of_lt hlt) h3, by
        intro x hx
        rcases List.mem_cons.mp hx with h | h
        · subst h; exact h3
        · exact h4 x h⟩
    · rw [show mcStep l (some (b, l.count b)) c = some (b, l.count b) by
        simp [mcStep, hlt]]
      obtain ⟨b', h1, h2, h3, h4⟩ := ih b hb (fun x hx => hsub x (by simp [hx]))
      exact ⟨b', h1, h2, h3, by
        intro x hx
        rcases List.mem_cons.mp hx with h | h
        · subst h; exact le_trans (Nat.le_of_not_lt hlt) h3
        · exact h4 x h⟩

lemma mostCommon1_spec {l : List Char} (hne : l ≠ []) :
    ∃ b, mostCommon1 l = some (b, l.count b) ∧ b ∈ l ∧ ∀ x : Char, l.count x ≤ l.count b := by
  obtain ⟨c, rest, hfo⟩ : ∃ c rest, firstOccs l = c :: rest := by
    cases hl : firstOccs l with
    | nil => exact absurd (firstOccs_eq_nil.mp hl) hne
    | cons c rest => exact ⟨c, rest, rfl⟩
  have hc : c ∈ l := mem_firstOccs.mp (by rw [hfo]; simp)
  have hsub : ∀ x ∈ rest, x ∈ l := fun x hx =>
    mem_firstOccs.mp (by rw [hfo]; simp [hx])
  obtain ⟨b', h1, h2, h3, h4⟩ := mcStep_fold rest c hc hsub
  refine ⟨b', ?_, h2, ?_⟩
  · rw [mostCommon1, hfo]
    simpa [mcStep] using h1
  · intro x
    by_cases hx : x ∈ l
    · have hxx : x ∈ firstOccs l := mem_firstOccs.mpr hx
      rw [hfo] at hxx
      rcases List.mem_cons.mp hxx with h | h
      · subst h; exact h3
      · exact h4 x h
    · rw [List.count_eq_zero_of_not_mem hx]; exact Nat.zero_le _

lemma missMaskGo_length_aux :
    ∀ (s : List Char) (cont : Bool) (mf : Nat), (cont = true ∨ mf ≠ 0) →
    (missMaskGo s false cont mf).length = s.length := by
  intro s
  induction s with
  | nil => intro cont mf _; rfl
  | cons c rest ih =>
    intro cont mf hinv
    cases cont with
    | true =>
      have h := ih true mf (Or.inl rfl)
      simp [missMaskGo, h]
    | false =>
      replace hinv : mf ≠ 0 := by
        rcases hinv with h | h
        · exact absurd h (by simp)
        · exact h
      by_cases hc : c = '-'
      · have h := ih false (mf + 1) (Or.inr (Nat.succ_ne_zero mf))
        simp [missMaskGo, hc, hinv, h]
      · have h := ih true mf (Or.inl rfl)
        simp [missMaskGo, hc, h]

lemma missFrontMask_length (s : List Char) : (missFrontMask s).length = s.length := by
  cases s with
  | nil => rfl
  | cons c rest =>
    by_cases hc : c = '-'
    · have h := missMaskGo_length_aux rest false 1 (Or.inr one_ne_zero)
      simp [missFrontMask, missMaskGo, hc, h]
    · have h := missMaskGo_length_aux rest true 0 (Or.inl rfl)
      simp [missFrontMask, missMaskGo, hc, h]

lemma missEndMask_length (s : List Char) : (missEndMask s).length = s.length := by
  have h := missFrontMask_length s.reverse
  simp only [missFrontMask] at h
  simp [missEndMask, h]

/-!  ## Claim C10 -/
lemma sumGapPairs_error : ∀ {a b : List Nat} {e : String},
    sumGapPairs a b = .error e → e = "IndexError: gap_ends" := by
  intro a
  induction a with
  | nil => intro b e h; simp [sumGapPairs] at h
  | cons s srest ih =>
    intro b e h
    cases b with
    | nil =>
      simp [sumGapPairs] at h
      exact h.symm
    | cons t trest =>
      simp only [sumGapPairs] at h
      cases hs : sumGapPairs srest trest with
      | error msg =>
        rw [hs] at h
        cases h
        exact ih hs
      | ok v => rw [hs] at h; cases h

lemma gapStatsOfSeq_error {r : List Char} {e : String}
    (h : gapStatsOfSeq r = .error e) : e = "IndexError: gap_ends" := by
  simp only [gapStatsOfSeq] at h
  split at h
  · cases hs : sumGapPairs (gapSE (nomissgapSeq r) 0 false).1 (gapSE (nomissgapSeq r) 0 false).2 with
    | error msg =>
      rw [hs] at h
      cases h
      exact sumGapPairs_error hs
    | ok v => rw [hs] at h; cases h
  · cases h

lemma baseStartGo_all_gap : ∀ {l : List Char} (i bs : Nat),
    (∀ c ∈ l, c = '-') → baseStartGo l i bs = bs := by
  intro l
  induction l with
  | nil => intro i bs _; rfl
  | cons c rest ih =>
    intro i bs hall
    have hc : c = '-' := hall c (by simp)
    simp only [baseStartGo, hc]
    rw [if_neg (by simp)]
    exact ih _ _ (fun x hx => hall x (by simp [hx]))

lemma baseEndGo_all_gap : ∀ {l : List Char} (i be : Nat),
    (∀ c ∈ l, c = '-') → baseEndGo l i be = be := by
  intro l
  induction l with
  | nil => intro i be _; rfl
  | cons c rest ih =>
    intro i be hall
    have hc : c = '-' := hall c (by simp)
    simp only [baseEndGo, hc]
    rw [if_neg (by simp)]
    exact ih _ _ (fun x hx => hall x (by simp [hx]))

lemma gapStatsOfSeq_all_gap {r : List Char} (hne : r ≠ []) (hall : ∀ c ∈ r, c = '-') :
    gapStatsOfSeq r = .error "IndexError: gap_ends" := by
  have hbs : baseStart r = 0 := baseStartGo_all_gap 0 0 hall
  have hbe : baseEnd r = 0 :=
    baseEndGo_all_gap _ 0 (fun c hc => hall c (List.mem_reverse.mp hc))
  have hcore : nomissgapSeq r = ['-'] := by
    obtain ⟨c, rest, rfl⟩ := List.exists_cons_of_ne_nil hne
    have hc : c = '-' := hall c (by simp)
    subst hc
    simp [nomissgapSeq, hbs, hbe, List.take]
  simp only [gapStatsOfSeq, hcore]
  rfl

lemma gapPhaseGo_error : ∀ {rows : List (List Char)} (acc : Nat × Nat × Nat),
    (∃ r ∈ rows, ∃ e, gapStatsOfSeq r = .error e) →
    gapPhaseGo rows acc = .error "IndexError: gap_ends" := by
  intro rows
  induction rows with
  | nil => intro acc h; simp at h
  | cons r rest ih =>
    intro acc h
    simp only [gapPhaseGo]
    cases hg : gapStatsOfSeq r with
    | error msg =>
      rw [gapStatsOfSeq_error hg]
    | ok v =>
      apply ih
      rcases h with ⟨r', hr', e, he⟩
      rcases List.mem_cons.mp hr' with hh | hh
      · subst hh; rw [hg] at he; cases he
      · exact ⟨r', hh, e, he⟩

lemma alignToStatistics_of_gapPhase_error {input : List (List Char)} {e : String}
    (h : gapPhase (input.map normalizeSeq) = .error e) :
    alignToStatistics input = .error e := by
  simp only [alignToStatistics, h]

/-- C10: a matrix containing a fully-gapped nonempty row (`-`/`.` only)
makes `align_to_statistics` raise an uncaught `IndexError` in the gap-run
extraction: `gap_ends` gets fewer entries than `gap_starts` because the
core slice of such a row is `"-"` with no closing non-gap symbol. -/
theorem all_gap_row_index_error (input : List (List Char))
    (h : ∃ r ∈ input, r ≠ [] ∧ ∀ c ∈ r, c = '-' ∨ c = '.') :
    alignToStatistics input = .error "IndexError: gap_ends" := by
  obtain ⟨r, hr, hne, hall⟩ := h
  apply alignToStatistics_of_gapPhase_error
  apply gapPhaseGo_error
  refine ⟨normalizeSeq r, List.mem_map_of_mem _ hr, "IndexError: gap_ends", ?_⟩
  apply gapStatsOfSeq_all_gap
  · simp [normalizeSeq]
    exact hne
  · intro c hc
    simp only [normalizeSeq, List.mem_map] at hc
    obtain ⟨c0, hc0, rfl⟩ := hc
    rcases hall c0 hc0 with h0 | h0 <;> subst h0 <;> rfl

/-- Witness for `all_gap_row_index_error` at the concrete matrix
`["--"]`. -/
theorem all_gap_row_index_error_witness :
    alignToStatistics [['-', '-']] = .error "IndexError: gap_ends" :=
  all_gap_row_index_error [['-', '-']]
    ⟨['-', '-'], by simp, by simp, by intro c hc; simp at hc; simp [hc]⟩

/-!  ## Claim C6 -/

/-- C6 is false as stated: on the non-zero-exit failure path of
`run_tool`, `stop_monitoring` is invoked twice (line 231, then line 245
after the `RuntimeError` raised inside the `try`), not exactly once. -/
theorem monitor_stop_counterexample :
    (superviseWait (.ok 1)).2 = 2 ∧ ¬ (superviseWait (.ok 1)).2 = 1 := by
  constructor
  · rfl
  · intro h
    simp [superviseWait] at h

/-- C6 (amended): `stop_monitoring` runs exactly once on the success path
and on the `wait`-exception path, and exactly twice on the non-zero-exit
failure path; on every path it runs at least once before the summary is
read. -/
theorem monitor_stop_amended :
    (∀ rc : Int, rc ≠ 0 →
      superviseWait (.ok rc) = (.error "RuntimeError: nonzero exit", 2)) ∧
    superviseWait (.ok 0) = (.ok (), 1) ∧
    (∀ e : String, superviseWait (.error e) = (.error e, 1)) ∧
    (∀ w : Except String Int, 1 ≤ (superviseWait w).2) := by
  refine ⟨?_, rfl, fun e => rfl, ?_⟩
  · intro rc h
    simp [superviseWait, h]
  · intro w
    cases w with
    | error e => exact le_refl 1
    | ok rc =>
      by_cases h : rc = 0
      · subst h; exact le_refl 1
      · simp [superviseWait, h]

/-- Witness for `monitor_stop_amended` at exit code `7` and at a raised
exception. -/
theorem monitor_stop_amended_witness :
    superviseWait (.ok 7) = (.error "RuntimeError: nonzero exit", 2) ∧
    superviseWait (.error "boom") = (.error "boom", 1) :=
  ⟨monitor_stop_amended.1 7 (by decide), monitor_stop_amended.2.2.1 "boom"⟩

/-!  ## Claim C9 -/

/-- C9: a tool argument whose lowercased value is not one of
`mafft`/`vsearch`/`uclust` makes `run_tool` fail with the `ValueError` of
the `Tool(...)` lookup before any command is planned, and no process is
spawned. -/
theorem unknown_tool_error (tool input_path output_path : String)
    (options : List String)
    (h : strLower tool ∉ (["mafft", "vsearch", "uclust"] : List String)) :
    run_tool_plan tool input_path output_path options = .error "ValueError: invalid tool" ∧
    run_tool_spawn_count tool input_path output_path options = 0 := by
  have h1 : strLower tool ≠ "mafft" := fun he => h (by simp [he])
  have h2 : strLower tool ≠ "vsearch" := fun he => h (by simp [he])
  have h3 : strLower tool ≠ "uclust" := fun he => h (by simp [he])
  have hplan : run_tool_plan tool input_path output_path options =
      .error "ValueError: invalid tool" := by
    simp [run_tool_plan, toolOfString, h1, h2, h3]
  exact ⟨hplan, by simp [run_tool_spawn_count, hplan]⟩

/-- Witness for `unknown_tool_error` at the concrete tool string
`"clustal"`. -/
theorem unknown_tool_error_witness :
    run_tool_plan "clustal" "in.fa" "out.aln" [] = .error "ValueError: invalid tool" ∧
    run_tool_spawn_count "clustal" "in.fa" "out.aln" [] = 0 :=
  unknown_tool_error "clustal" "in.fa" "out.aln" [] (by decide)

/-!  ## Claim C4 -/

/-- C4 is about code that contradicts the stated core-region rule: for the
single-row matrix `["A-AA"]` the spec's rule gives one internal gap run of
length 1, but `align_to_statistics` reports no gapped sequence, no gap run
and gap length sum 0, because the `base_start == 0` sentinel re-fires on a
row starting with a base and the core slice becomes `"AA"`.  The spec's
own example `"AA--A--AA"` is unaffected (two runs of length 2). -/
theorem gap_core_region_bug :
    (alignToStatistics [['A', '-', 'A', 'A']]).map
      (fun r => (r.gapSeqCount, r.gapCount, r.gapSumLength)) = .ok (0, 0, 0) ∧
    (alignToStatistics [['A', 'A', '-', '-', 'A', '-', '-', 'A', 'A']]).map
      (fun r => (r.gapSeqCount, r.gapCount, r.gapSumLength)) = .ok (1, 2, 4) :=
  ⟨rfl, rfl⟩

/-!  ## Claim C2 -/

/-- C2: for a matrix cell matching its column's majority base, the cutoff
loop increments exactly one identity bucket, the one given by the claim's
ladder (`ladderBucket`): bucket 90 on `[90,100]`, bucket `t` on
`[t, t+10)` for `t ∈ {80,70,60,50}`, and bucket 40 also for all
frequencies below 40. -/
theorem bucket_ladder (f : Nat) (hf : f ≤ 100) (bc : BucketCounts) (t : Nat) :
    bucketGet (bucketIncr f bc) t =
      bucketGet bc t + (if t = ladderBucket f then 1 else 0) :=
  bucketGet_bucketIncr hf bc t

/-- Witness for `bucket_ladder` at the claim's boundary frequencies
90, 89, 40 and 39 (the bucket receiving the increment is 90, 80, 40 and 40
respectively). -/
theorem bucket_ladder_witness :
    bucketGet (bucketIncr 90 BucketCounts.empty) 90 =
      bucketGet BucketCounts.empty 90 + (if 90 = ladderBucket 90 then 1 else 0) ∧
    bucketGet (bucketIncr 89 BucketCounts.empty) 80 =
      bucketGet BucketCounts.empty 80 + (if 80 = ladderBucket 89 then 1 else 0) ∧
    bucketGet (bucketIncr 40 BucketCounts.empty) 40 =
      bucketGet BucketCounts.empty 40 + (if 40 = ladderBucket 40 then 1 else 0) ∧
    bucketGet (bucketIncr 39 BucketCounts.empty) 40 =
      bucketGet BucketCounts.empty 40 + (if 40 = ladderBucket 39 then 1 else 0) :=
  ⟨bucket_ladder 90 (by decide) BucketCounts.empty 90,
   bucket_ladder 89 (by decide) BucketCounts.empty 80,
   bucket_ladder 40 (by decide) BucketCounts.empty 40,
   bucket_ladder 39 (by decide) BucketCounts.empty 40⟩

/-!  ## Claim C1: counterexample -/

/-- C1 is false as stated: on the matrix `["-A", "NA"]` the engine tracks
3 non-missing base occurrences although only 2 cells hold canonical bases
(the `N` is counted too), counts the ambiguity letter `N` as a non-blue
base, and classifies the gap cell of column 1 (whose majority sentinel is
`'-'` with frequency 0) into identity bucket 40. -/
theorem blue_classification_counterexample :
    (alignToStatistics [['-', 'A'], ['N', 'A']]).map
      (fun r => (r.noMiss, r.noBlue, r.buckets.b40)) = .ok (3, 1, 1) ∧
    canonicalOccurrences [['-', 'A'], ['N', 'A']] = 2 :=
  ⟨rfl, rfl⟩

/-!  ## Claim C7: counterexample -/

/-- C7 is false as stated: in the report for `["AT", "AT"]` the line at
index 5 (the fifth metric line) is the missing-data count, not the A
frequency; the per-base frequency lines only start at index 9. -/
theorem report_order_counterexample :
    (alignToStatistics [['A', 'T'], ['A', 'T']]).map
      (fun r => (r.values.getD 5 "", r.values.getD 9 "")) =
      .ok ("Miss count\t0\t0", "A freq\t100\t0") :=
  rfl

/-!  ## Claim C8 -/
lemma map_id_of_mem {α : Type} {l : List α} {f : α → α} (h : ∀ a ∈ l, f a = a) :
    l.map f = l := by
  induction l with
  | nil => rfl
  | cons a rest ih =>
    simp only [List.map_cons, h a (by simp)]
    rw [ih (fun x hx => h x (by simp [hx]))]

lemma foldl_max_const {L : Nat} : ∀ (l : List Nat) (a : Nat),
    (∀ x ∈ l, x = L) → l ≠ [] → l.foldl max a = max a L := by
  intro l
  induction l with
  | nil => intro a _ h; exact absurd rfl h
  | cons x rest ih =>
    intro a hall _
    have hx : x = L := hall x (by simp)
    rw [List.foldl_cons, hx]
    by_cases hr : rest = []
    · subst hr; simp
    · rw [ih (max a L) (fun z hz => hall z (by simp [hz])) hr, max_assoc, max_self]

/-- C8: `clean_align_file` is the identity on an already-normalized
alignment — no consensus row, no leading `*` marker, upper-case symbols,
no `.`/`~` gap variants, all rows of the same length `L` — and it returns
that same maximal length `L`. -/
theorem clean_align_idempotent (records : List (String × List Char)) (L : Nat)
    (hne : records ≠ [])
    (hcons : ∀ r ∈ records, r.1 ≠ "consensus")
    (hstar : ∀ r ∈ records, startsWithStar r.1 = false)
    (hlen : ∀ r ∈ records, r.2.length = L)
    (hsym : ∀ r ∈ records, ∀ c ∈ r.2, c ≠ '.' ∧ c ≠ '~' ∧ Char.toUpper c = c) :
    clean_align_file records = (records, L) := by
  have hfilter : records.filter (fun r => r.1 ≠ "consensus") = records := by
    rw [List.filter_eq_self]
    intro r hr
    simpa using hcons r hr
  have hmax : (records.map (fun r => r.2.length)).foldl max 0 = L := by
    rw [foldl_max_const (records.map (fun r => r.2.length)) 0
      (by intro x hx
          obtain ⟨r, hr, rfl⟩ := List.mem_map.mp hx
          exact hlen r hr)
      (by simpa using hne)]
    simp
  simp only [clean_align_file, hfilter, hmax]
  refine Prod.ext ?_ rfl
  simp only
  apply map_id_of_mem
  intro r hr
  have h1 : startsWithStar r.1 = false := hstar r hr
  have h2 : r.2.map (fun c => if c = '.' ∨ c = '~' then '-' else c) = r.2 := by
    apply map_id_of_mem
    intro c hc
    obtain ⟨hc1, hc2, _⟩ := hsym r hr c hc
    simp [hc1, hc2]
  rw [h1]
  simp only [Bool.false_eq_true, if_false, h2, hlen r hr, Nat.sub_self,
    List.replicate_zero, List.append_nil]
  rw [map_id_of_mem (fun c hc => (hsym r hr c hc).2.2)]

/-- Witness for `clean_align_idempotent` at a concrete normalized
two-row alignment of length 3. -/
theorem clean_align_idempotent_witness :
    clean_align_file [("s1", ['A', 'C', '-']), ("s2", ['G', 'G', 'T'])] =
      ([("s1", ['A', 'C', '-']), ("s2", ['G', 'G', 'T'])], 3) :=
  clean_align_idempotent _ 3 (by simp) (by decide) (by decide) (by decide) (by decide)

/-!  ## Claim C5 -/
lemma gapPhaseGo_all_nil : ∀ (rows : List (List Char)) (acc : Nat × Nat × Nat),
    (∀ r ∈ rows, r = []) → gapPhaseGo rows acc = .ok acc := by
  intro rows
  induction rows with
  | nil => intro acc _; rfl
  | cons r rest ih =>
    intro acc hall
    have hr : r = [] := hall r (by simp)
    subst hr
    have hstep : gapStatsOfSeq ([] : List Char) = .ok (false, 0, 0) := rfl
    simp only [gapPhaseGo, hstep]
    rw [ih _ (fun x hx => hall x (by simp [hx]))]
    simp

lemma bluePhaseGo_all_nil (profs : List (Char × Nat)) :
    ∀ (rows : List (List Char)) (acc : BlueAcc),
    (∀ r ∈ rows, r = []) → bluePhaseGo profs rows acc = .ok acc := by
  intro rows
  induction rows with
  | nil => intro acc _; rfl
  | cons r rest ih =>
    intro acc hall
    have hr : r = [] := hall r (by simp)
    subst hr
    simp only [bluePhaseGo, blueSeqGo]
    exact ih _ (fun x hx => hall x (by simp [hx]))

lemma alignToStatistics_all_nil (r : List Char) (rest : List (List Char))
    (hall : ∀ x ∈ r :: rest, normalizeSeq x = []) :
    alignToStatistics (r :: rest) = .error "ZeroDivisionError: nomiss_base_count" := by
  have hrows : ∀ x ∈ (r :: rest).map normalizeSeq, x = [] := by
    intro x hx
    obtain ⟨y, hy, rfl⟩ := List.mem_map.mp hx
    exact hall y hy
  have hgap : gapPhase ((r :: rest).map normalizeSeq) = .ok (0, 0, 0) :=
    gapPhaseGo_all_nil _ _ hrows
  have hr0 : normalizeSeq r = [] := hall r (by simp)
  have hblue : ∀ profs, bluePhaseGo profs ((r :: rest).map normalizeSeq) BlueAcc.empty =
      .ok BlueAcc.empty := fun profs => bluePhaseGo_all_nil profs _ _ hrows
  have hcol : ∀ (rows f e : List (List Char)), colPhase rows f e 0 = .ok [] :=
    fun _ _ _ => rfl
  simp only [alignToStatistics]
  rw [show gapPhase ((r :: rest).map normalizeSeq) = .ok (0, 0, 0) from hgap]
  simp only [List.map_cons, List.head?_cons, hr0, List.length_nil, hcol,
    List.map_nil, bluePhase]
  rw [bluePhaseGo_all_nil [] (([] : List Char) :: rest.map normalizeSeq) BlueAcc.empty
    (by
      intro x hx
      rcases List.mem_cons.mp hx with h | h
      · exact h
      · obtain ⟨y, hy, rfl⟩ := List.mem_map.mp h
        exact hall y (by simp [hy]))]
  rfl

/-- C5: `align_to_statistics` raises rather than divides by zero on both
degenerate inputs: a zero-row matrix (the `fasta_list[0]` access raises
`IndexError`), and a matrix whose computed non-missing base count is 0
(either some nonempty row is all gaps — `IndexError` in gap-run
extraction — or every row is empty and the blue-base ratio division
raises `ZeroDivisionError`); no `Statistic` value is produced. -/
theorem degenerate_statistics_error (input : List (List Char))
    (h : input = [] ∨ nomissOccurrences input = 0) :
    isExceptError (alignToStatistics input) = true := by
  rcases h with h | h
  · subst h; rfl
  · by_cases hex : ∃ r ∈ input, normalizeSeq r ≠ []
    · obtain ⟨r, hr, hne⟩ := hex
      have hcount : (normalizeSeq r).countP (fun c => decide (c ≠ '-')) = 0 := by
        refine (List.sum_eq_zero_iff).mp h _ ?_
        exact List.mem_map_of_mem _ (List.mem_map_of_mem _ hr)
      have hall : ∀ c ∈ normalizeSeq r, c = '-' := by
        intro c hc
        by_contra hcc
        have hpos : 0 < (normalizeSeq r).countP (fun c => decide (c ≠ '-')) :=
          List.countP_pos_iff.mpr ⟨c, hc, by simpa using hcc⟩
        omega
      have herr := gapStatsOfSeq_all_gap hne hall
      have hphase := @gapPhaseGo_error (input.map normalizeSeq) (0, 0, 0)
        ⟨normalizeSeq r, List.mem_map_of_mem _ hr, _, herr⟩
      rw [alignToStatistics_of_gapPhase_error hphase]
      rfl
    · push_neg at hex
      cases input with
      | nil => rfl
      | cons r rest =>
        rw [alignToStatistics_all_nil r rest (fun x hx => hex x hx)]
        rfl

/-- Witness for `degenerate_statistics_error` at the zero-row matrix and
at a one-row matrix of length 0. -/
theorem degenerate_statistics_error_witness :
    isExceptError (alignToStatistics []) = true ∧
    isExceptError (alignToStatistics [[]]) = true :=
  ⟨degenerate_statistics_error [] (Or.inl rfl),
   degenerate_statistics_error [[]] (Or.inr rfl)⟩

/-!  ## Claim C1 -/
lemma blueSeqGo_spec (profs : List (Char × Nat)) (hf : ∀ p ∈ profs, p.2 ≤ 100) :
    ∀ (row : List Char) (j : Nat) (acc : BlueAcc), j + row.length ≤ profs.length →
    ∃ out, blueSeqGo profs row j acc = .ok out ∧
      out.noMiss = acc.noMiss + row.countP (fun x => decide (x ≠ '-')) ∧
      out.noBlue = acc.noBlue + (row.zip (profs.drop j)).countP
        (fun q => decide (q.1 ≠ q.2.1 ∧ q.1 ≠ '-')) ∧
      sumBuckets out.buckets = sumBuckets acc.buckets + (row.zip (profs.drop j)).countP
        (fun q => decide (q.1 = q.2.1)) := by
  intro row
  induction row with
  | nil => intro j acc _; exact ⟨acc, rfl, by simp, by simp, by simp⟩
  | cons c rest ih =>
    intro j acc hj
    have hjlt : j < profs.length := by
      simp only [List.length_cons] at hj; omega
    have hget : profs.get? j = some profs[j] := by
      rw [List.get?_eq_getElem?]; exact List.getElem?_eq_getElem hjlt
    have hdrop : profs.drop j = profs[j] :: profs.drop (j + 1) :=
      List.drop_eq_getElem_cons hjlt
    have hp100 : profs[j].2 ≤ 100 := hf _ (List.getElem_mem hjlt)
    have hrest : j + 1 + rest.length ≤ profs.length := by
      simp only [List.length_cons] at hj; omega
    simp only [blueSeqGo, hget]
    split_ifs with h1 h2 h3
    · obtain ⟨out, e1, e2, e3, e4⟩ := ih (j + 1)
        { buckets := bucketIncr profs[j].2 acc.buckets, noBlue := acc.noBlue,
          noMiss := acc.noMiss + 1 } hrest
      refine ⟨out, e1, ?_, ?_, ?_⟩
      · rw [e2]
        simp only [List.countP_cons, decide_eq_true_eq]
        rw [if_pos h2]
        omega
      · rw [e3, hdrop, List.zip_cons_cons]
        simp only [List.countP_cons, decide_eq_true_eq]
        rw [if_neg (fun hh => hh.1 h1)]
        omega
      · rw [e4, sumBuckets_bucketIncr hp100, hdrop, List.zip_cons_cons]
        simp only [List.countP_cons, decide_eq_true_eq]
        rw [if_pos h1]
        omega
    · obtain ⟨out, e1, e2, e3, e4⟩ := ih (j + 1)
        { buckets := bucketIncr profs[j].2 acc.buckets, noBlue := acc.noBlue,
          noMiss := acc.noMiss } hrest
      refine ⟨out, e1, ?_, ?_, ?_⟩
      · rw [e2]
        simp only [List.countP_cons, decide_eq_true_eq]
        rw [if_neg h2]
        omega
      · rw [e3, hdrop, List.zip_cons_cons]
        simp only [List.countP_cons, decide_eq_true_eq]
        rw [if_neg (fun hh => hh.1 h1)]
        omega
      · rw [e4, sumBuckets_bucketIncr hp100, hdrop, List.zip_cons_cons]
        simp only [List.countP_cons, decide_eq_true_eq]
        rw [if_pos h1]
        omega
    · obtain ⟨out, e1, e2, e3, e4⟩ := ih (j + 1)
        { buckets := acc.buckets, noBlue := acc.noBlue + 1,
          noMiss := acc.noMiss + 1 } hrest
      refine ⟨out, e1, ?_, ?_, ?_⟩
      · rw [e2]
        simp only [List.countP_cons, decide_eq_true_eq]
        rw [if_pos h3]
        omega
      · rw [e3, hdrop, List.zip_cons_cons]
        simp only [List.countP_cons, decide_eq_true_eq]
        rw [if_pos ⟨h1, h3⟩]
        omega
      · rw [e4, hdrop, List.zip_cons_cons]
        simp only [List.countP_cons, decide_eq_true_eq]
        rw [if_neg h1]
        omega
    · obtain ⟨out, e1, e2, e3, e4⟩ := ih (j + 1) acc hrest
      have hcg : c = '-' := not_not.mp h3
      refine ⟨out, e1, ?_, ?_, ?_⟩
      · rw [e2]
        simp only [List.countP_cons, decide_eq_true_eq]
        rw [if_neg h3]
        omega
      · rw [e3, hdrop, List.zip_cons_cons]
        simp only [List.countP_cons, decide_eq_true_eq]
        rw [if_neg (fun hh => hh.2 hcg)]
        omega
      · rw [e4, hdrop, List.zip_cons_cons]
        simp only [List.countP_cons, decide_eq_true_eq]
        rw [if_neg h1]
        omega


lemma bluePhaseGo_spec (profs : List (Char × Nat)) (hf : ∀ p ∈ profs, p.2 ≤ 100) :
    ∀ (rows : List (List Char)) (acc : BlueAcc),
    (∀ r ∈ rows, r.length = profs.length) →
    ∃ out, bluePhaseGo profs rows acc = .ok out ∧
      out.noMiss = acc.noMiss + matrixNonGapCount rows ∧
      out.noBlue = acc.noBlue + matrixNonBlueCount rows profs ∧
      sumBuckets out.buckets = sumBuckets acc.buckets + matrixMatchCount rows profs := by
  intro rows
  induction rows with
  | nil =>
    intro acc _
    exact ⟨acc, rfl, by simp [matrixNonGapCount], by simp [matrixNonBlueCount],
      by simp [matrixMatchCount]⟩
  | cons r rest ih =>
    intro acc hall
    have hr : r.length = profs.length := hall r (by simp)
    obtain ⟨mid, m1, m2, m3, m4⟩ := blueSeqGo_spec profs hf r 0 acc (by omega)
    obtain ⟨out, o1, o2, o3, o4⟩ := ih mid (fun x hx => hall x (by simp [hx]))
    refine ⟨out, ?_, ?_, ?_, ?_⟩
    · simp only [bluePhaseGo, m1]
      exact o1
    · rw [o2, m2]
      simp only [matrixNonGapCount, List.map_cons, List.sum_cons]
      omega
    · rw [o3, m3]
      simp only [matrixNonBlueCount, List.map_cons, List.sum_cons, List.drop_zero]
      omega
    · rw [o4, m4]
      simp only [matrixMatchCount, List.map_cons, List.sum_cons, List.drop_zero]
      omega

/-- C1 (amended): over an equal-width matrix, the blue-base loop tracks
`nomiss_base_count` as the number of all non-gap cells (canonical or
ambiguity letters alike), counts as non-blue every non-gap cell differing
from its column's majority entry (so ambiguity letters are counted), and
classifies into identity buckets exactly the cells equal to their
column's majority entry — which in a column without canonical bases is
the sentinel `'-'`, so gap cells there are classified too. -/
theorem blue_classification_amended (rows : List (List Char))
    (profs : List (Char × Nat))
    (hlen : ∀ r ∈ rows, r.length = profs.length)
    (hf : ∀ p ∈ profs, p.2 ≤ 100) :
    ∃ out, bluePhase rows profs = .ok out ∧
      out.noMiss = matrixNonGapCount rows ∧
      out.noBlue = matrixNonBlueCount rows profs ∧
      sumBuckets out.buckets = matrixMatchCount rows profs := by
  obtain ⟨out, h1, h2, h3, h4⟩ := bluePhaseGo_spec profs hf rows BlueAcc.empty hlen
  exact ⟨out, h1, by simpa [BlueAcc.empty] using h2, by simpa [BlueAcc.empty] using h3,
    by simpa [BlueAcc.empty, BucketCounts.empty, sumBuckets] using h4⟩

/-- Witness for `blue_classification_amended` at the matrix
`["-A", "NA"]` with the engine's own column profiles
`[('-', 0), ('A', 100)]`. -/
theorem blue_classification_amended_witness :
    ∃ out, bluePhase [['-', 'A'], ['N', 'A']] [('-', 0), ('A', 100)] = .ok out ∧
      out.noMiss = matrixNonGapCount [['-', 'A'], ['N', 'A']] ∧
      out.noBlue = matrixNonBlueCount [['-', 'A'], ['N', 'A']] [('-', 0), ('A', 100)] ∧
      sumBuckets out.buckets =
        matrixMatchCount [['-', 'A'], ['N', 'A']] [('-', 0), ('A', 100)] :=
  blue_classification_amended _ _ (by decide) (by decide)

/-!  ## Claim C7: amended layout -/
lemma colPhaseGo_length (triples : List (List Char × List Char × List Char)) :
    ∀ (idxs : List Nat) (cols : List ColOut),
    colPhaseGo triples idxs = .ok cols → cols.length = idxs.length := by
  intro idxs
  induction idxs with
  | nil =>
    intro cols h
    simp only [colPhaseGo] at h
    cases h
    rfl
  | cons i rest ih =>
    intro cols h
    simp only [colPhaseGo] at h
    cases hc : colStats (columnOfGo triples i).1 (columnOfGo triples i).2.1
        (columnOfGo triples i).2.2 with
    | error e => rw [hc] at h; cases h
    | ok c =>
      rw [hc] at h
      cases hcs : colPhaseGo triples rest with
      | error e => rw [hcs] at h; cases h
      | ok cs =>
        rw [hcs] at h
        cases h
        simp [ih cs hcs]

/-- C7 (amended): the report is one header line (`Position` then the
column indices `1..L`) followed by exactly one line per metric, each line
being the metric name, a tab, and the tab-joined per-column values — but
in the code's order: the four base counts, then missing count,
internal-gap count, other-symbol count, combined-gap count, then the four
base frequencies, then total count, coverage, IUPAC code, majority base
and majority base count. -/
theorem report_layout_amended (input : List (List Char)) (r : EngineResult)
    (h : alignToStatistics input = .ok r) :
    ∃ ds : List (List String),
      r.values = reportHeader r.seqLen ::
        List.zipWith (fun n d => n ++ "\t" ++ tabJoin d) valueNames ds ∧
      valueNames = ["A count", "T count", "G count", "C count", "Miss count",
        "Gap count", "etc count", "MissGap count", "A freq", "T freq", "G freq",
        "C freq", "Total count", "Coverage", "IUPAC", "Major base",
        "Major base count"] ∧
      ds.length = 17 ∧
      r.values.length = 18 ∧
      ∀ d ∈ ds, d.length = r.seqLen := by
  simp only [alignToStatistics] at h
  split at h
  · cases h
  · split at h
    · cases h
    · rename_i gaps hgaps first hfirst
      split at h
      · cases h
      · rename_i cols hcols
        split at h
        · cases h
        · rename_i blue hblue
          split at h
          · cases h
          · cases h
            have hlen : cols.length = first.length := by
              have := colPhaseGo_length _ _ _ hcols
              simpa using this
            refine ⟨valueDataLists cols, rfl, rfl, rfl, rfl, ?_⟩
            intro d hd
            simp only [valueDataLists, List.mem_cons,
              List.not_mem_nil, or_false] at hd
            rcases hd with rfl | rfl | rfl | rfl | rfl | rfl | rfl | rfl | rfl |
              rfl | rfl | rfl | rfl | rfl | rfl | rfl | rfl <;>
              simp [hlen]


/-- Witness for `report_layout_amended` at the matrix `["AT", "AT"]`. -/
theorem report_layout_amended_witness :
    ∃ (r : EngineResult) (ds : List (List String)),
      alignToStatistics [['A', 'T'], ['A', 'T']] = .ok r ∧
      r.values = reportHeader r.seqLen ::
        List.zipWith (fun n d => n ++ "\t" ++ tabJoin d) valueNames ds ∧
      ds.length = 17 ∧ r.values.length = 18 ∧ ∀ d ∈ ds, d.length = r.seqLen := by
  obtain ⟨r, hr⟩ : ∃ r, alignToStatistics [['A', 'T'], ['A', 'T']] = .ok r := ⟨_, rfl⟩
  obtain ⟨ds, h1, _, h3, h4, h5⟩ := report_layout_amended _ _ hr
  exact ⟨r, ds, hr, h1, h3, h4, h5⟩

/-!  ## Claim C3 -/
/-- C3: in every column the majority base is chosen among the four
canonical bases only (ambiguity symbols and gaps never win): exactly one
is selected with its count when a canonical base is present, the sentinel
`('-', 0)` is produced when none is, and the majority frequency
`freq_max` equals the majority count over the column total as a
percentage rounded to the nearest integer (`pctRound`, rounding half to
even as Python's `round`; the last two bounds state that the result is
within half a percent of the exact ratio, i.e. a nearest integer). -/
theorem column_majority (data mdata notGap : List Char) (co : ColOut)
    (hng : notGap = data.filter (fun c => decide (c ∈ Nucleotide_common)))
    (hok : colStats data mdata notGap = .ok co) :
    (notGap ≠ [] → co.maxNuc ∈ Nucleotide_common ∧
      co.maxNucCount = data.count co.maxNuc ∧
      ∀ b ∈ Nucleotide_common, data.count b ≤ co.maxNucCount) ∧
    (notGap = [] → co.maxNuc = '-' ∧ co.maxNucCount = 0) ∧
    co.freqMax = pctRound co.maxNucCount co.totalCount ∧
    0 < co.totalCount ∧
    2 * (co.totalCount * pctRound co.maxNucCount co.totalCount) ≤
      200 * co.maxNucCount + co.totalCount ∧
    200 * co.maxNucCount ≤
      2 * (co.totalCount * pctRound co.maxNucCount co.totalCount) + co.totalCount := by
  simp only [colStats] at hok
  split at hok
  · cases hok
  · rename_i htot
    split at hok
    · cases hok
    · rename_i iup hiup
      cases hok
      dsimp only
      have hpos := Nat.pos_of_ne_zero htot
      have hcnt : ∀ b : Char, b ∈ Nucleotide_common → notGap.count b = data.count b := by
        intro b hb
        rw [hng]
        exact List.count_filter (by simpa using hb)
      refine ⟨?_, ?_, ?_, hpos, pctRound_nearest hpos⟩
      · intro hne
        obtain ⟨b, hsome, hbmem, hmax⟩ := mostCommon1_spec hne
        rw [hsome]
        dsimp only
        have hbc : b ∈ Nucleotide_common := by
          rw [hng] at hbmem
          exact of_decide_eq_true (List.mem_filter.mp hbmem).2
        refine ⟨hbc, hcnt b hbc, ?_⟩
        intro b' hb'
        have h := hmax b'
        rwa [hcnt b' hb'] at h
      · intro hnil
        rw [hnil]
        exact ⟨rfl, rfl⟩
      · by_cases hne : notGap = []
        · have hz : ∀ b : Char, b ∈ Nucleotide_common → data.count b = 0 := by
            intro b hb
            rw [← hcnt b hb, hne]
            simp
          rw [hne]
          rw [hz 'A' (by decide), hz 'T' (by decide), hz 'G' (by decide),
            hz 'C' (by decide)]
          simp [mostCommon1, firstOccs]
        · obtain ⟨b, hsome, hbmem, hmax⟩ := mostCommon1_spec hne
          rw [hsome]
          dsimp only
          have hbc : b ∈ Nucleotide_common := by
            rw [hng] at hbmem
            exact of_decide_eq_true (List.mem_filter.mp hbmem).2
          have hble : ∀ b' : Char, b' ∈ Nucleotide_common →
              data.count b' ≤ data.count b := by
            intro b' hb'
            have h := hmax b'
            rwa [hcnt b' hb', hcnt b hbc] at h
          rw [hcnt b hbc]
          have hA := pctRound_mono hpos (hble 'A' (by decide))
          have hT := pctRound_mono hpos (hble 'T' (by decide))
          have hG := pctRound_mono hpos (hble 'G' (by decide))
          have hC := pctRound_mono hpos (hble 'C' (by decide))
          rcases show b = 'A' ∨ b = 'T' ∨ b = 'G' ∨ b = 'C' by
              simpa [Nucleotide_common] using hbc with rfl | rfl | rfl | rfl
          · rw [max_eq_left (pctRound_mono hpos (hble 'T' (by decide))),
              max_eq_left (pctRound_mono hpos (hble 'G' (by decide))),
              max_eq_left (pctRound_mono hpos (hble 'C' (by decide)))]
          · rw [max_eq_right (pctRound_mono hpos (hble 'A' (by decide))),
              max_eq_left (pctRound_mono hpos (hble 'G' (by decide))),
              max_eq_left (pctRound_mono hpos (hble 'C' (by decide)))]
          · rw [max_eq_right (max_le (pctRound_mono hpos (hble 'A' (by decide)))
                (pctRound_mono hpos (hble 'T' (by decide)))),
              max_eq_left (pctRound_mono hpos (hble 'C' (by decide)))]
          · rw [max_eq_right (max_le (max_le
                (pctRound_mono hpos (hble 'A' (by decide)))
                (pctRound_mono hpos (hble 'T' (by decide))))
                (pctRound_mono hpos (hble 'G' (by decide))))]


/-- Witness for `column_majority` at the claim's example column with
counts A=3, T=1 out of 4: majority base `A`, majority frequency 75. -/
theorem column_majority_witness :
    ∃ co : ColOut,
      colStats ['A', 'A', 'A', 'T'] []
          (['A', 'A', 'A', 'T'].filter (fun c => decide (c ∈ Nucleotide_common))) =
        .ok co ∧
      co.maxNuc = 'A' ∧ co.maxNucCount = 3 ∧ co.totalCount = 4 ∧ co.freqMax = 75 ∧
      (co.maxNuc ∈ Nucleotide_common ∧
        co.maxNucCount = List.count co.maxNuc ['A', 'A', 'A', 'T'] ∧
        ∀ b ∈ Nucleotide_common, List.count b ['A', 'A', 'A', 'T'] ≤ co.maxNucCount) ∧
      co.freqMax = pctRound co.maxNucCount co.totalCount := by
  have hmain := column_majority ['A', 'A', 'A', 'T'] []
    (['A', 'A', 'A', 'T'].filter (fun c => decide (c ∈ Nucleotide_common)))
    ⟨3, 1, 0, 0, 0, 0, 0, 0, 4, 100, 75, 25, 0, 0, "W", 'A', 3, 75⟩ rfl rfl
  exact ⟨⟨3, 1, 0, 0, 0, 0, 0, 0, 4, 100, 75, 25, 0, 0, "W", 'A', 3, 75⟩,
    rfl, rfl, rfl, rfl, rfl, hmain.1 (by decide), hmain.2.2.1⟩

end SatCore
